import Mathlib

/-!
# Verification of the ducklake incremental ingestion / aggregation core

Shallow embedding of `ducklake_core` (anomaly.py, simple_pipeline.py,
search_log_parser.py) together with proofs settling the frozen claims.

Conventions:
* machine integers are `Int`/`Nat`; Python floats that stay exact in the
  relevant computations are `ℚ`, lifted to `ℝ` where `math.sqrt` appears;
* SQL NULL is `Option.none`; fallible Python code returns `Except`;
* dates are `Int` (days since 1970-01-01, the epoch default
  `DATE '1970-01-01'` being `0`); timestamps are `Int` seconds and
  `date(ts)` is `Int.fdiv ts 86400`.
-/

namespace Ducklake

/-! ## Anomaly detector (`ducklake_core/anomaly.py`)

`statistics.median` sorts the list and takes the middle element (odd
length) or the mean of the two middle elements (even length).  We sort
with a structural insertion sort so that concrete medians evaluate by
`decide`. -/

def insertSorted (x : ℚ) : List ℚ → List ℚ
  | [] => [x]
  | y :: ys => if x ≤ y then x :: y :: ys else y :: insertSorted x ys

def sortQ (l : List ℚ) : List ℚ := l.foldr insertSorted []

/-- `statistics.median`.  The Python function raises on `[]`; every call
site in `anomaly.py` guards non-emptiness first, so the `[]` value here
is never relied upon. -/
def median (l : List ℚ) : ℚ :=
  let s := sortQ l
  let n := s.length
  if n % 2 = 1 then s.getD (n / 2) 0
  else (s.getD (n / 2 - 1) 0 + s.getD (n / 2) 0) / 2

/-- `_mad` from `anomaly.py`: median absolute deviation (the trailing
`mad or 0.0` maps `0.0` to `0.0` and is the identity here). -/
def mad (l : List ℚ) : ℚ :=
  if l = [] then 0
  else median (l.map fun v => |v - median l|)

/-- arithmetic mean, as used by `statistics.pstdev`. -/
def meanQ (l : List ℚ) : ℚ := l.sum / l.length

/-- population variance (`statistics.pstdev` squared). -/
def pvariance (l : List ℚ) : ℚ :=
  (l.map fun v => (v - meanQ l) ^ 2).sum / l.length

/-- `statistics.pstdev`, the square root of the population variance. -/
noncomputable def pstdev (l : List ℚ) : ℝ := Real.sqrt ((pvariance l : ℚ) : ℝ)

/-- `modified_z_scores` from `anomaly.py`: MAD-based modified z-scores,
falling back to the population-stdev z-score when MAD = 0 (`stdev or
1.0` replaces a zero stdev by 1), and to all-zero scores for a
singleton. -/
noncomputable def modified_z_scores (vals : List ℚ) : List ℝ :=
  if vals = [] then []
  else
    let med := median vals
    let m := mad vals
    if m = 0 then
      if vals.length < 2 then vals.map fun _ => 0
      else
        let s := if pstdev vals = 0 then 1 else pstdev vals
        vals.map fun v => ((v : ℝ) - (med : ℝ)) / s
    else vals.map fun v => (((6745 / 10000 : ℚ) * (v - med) / m : ℚ) : ℝ)

/-- The per-series flagging loop of `detect_anomalies`: keep the points
whose modified z-score satisfies `abs(z) >= z_threshold`. -/
noncomputable def detect_anomalies (vals : List ℚ) (z_threshold : ℝ) :
    List (ℚ × ℝ) :=
  (vals.zip (modified_z_scores vals)).filter fun p =>
    @decide (z_threshold ≤ |p.2|) (Classical.propDecidable _)

/-- The series of the C1 claim. -/
def c1Series : List ℚ := [10, 10, 10, 10, 100]

lemma median_c1 : median c1Series = 10 := by
  norm_num [median, sortQ, insertSorted, c1Series]

lemma mad_c1 : mad c1Series = 0 := by
  norm_num [mad, median, sortQ, insertSorted, c1Series]

lemma pvar_c1 : pvariance c1Series = 1296 := by
  norm_num [pvariance, meanQ, c1Series]

lemma pstdev_c1 : pstdev c1Series = 36 := by
  unfold pstdev
  rw [pvar_c1, show (((1296 : ℚ) : ℝ)) = 36 ^ 2 by norm_num, Real.sqrt_sq (by norm_num)]

lemma mz_c1 : modified_z_scores c1Series = [0, 0, 0, 0, 5/2] := by
  simp only [modified_z_scores, mad_c1, pstdev_c1, median_c1]
  norm_num [c1Series]
  exact fun h => absurd h (by simp)

lemma detect_c1_6 : detect_anomalies c1Series 6 = [] := by
  rw [detect_anomalies, mz_c1]
  rw [List.filter_eq_nil_iff]
  intro p hp
  simp only [c1Series, List.zip, List.zipWith] at hp
  fin_cases hp <;> simp [abs_lt] <;> norm_num

lemma detect_c1_52 : detect_anomalies c1Series (5/2) = [(100, 5/2)] := by
  rw [detect_anomalies, mz_c1]
  have hz : c1Series.zip [(0:ℝ), 0, 0, 0, 5/2]
      = [(10,(0:ℝ)),(10,0),(10,0),(10,0),(100,5/2)] := by simp [c1Series]
  rw [hz]
  simp only [List.filter_cons, List.filter_nil, decide_eq_true_eq]
  rw [if_neg (by norm_num), if_neg (by norm_num), if_neg (by norm_num),
      if_neg (by norm_num), if_pos (by rw [abs_of_nonneg] <;> norm_num)]

/-- C1 counterexample: on the series `[10,10,10,10,100]` with threshold
6.0 the detector does NOT flag the value 100 (it flags nothing): the MAD
of this series is 0, so the population-stdev fallback applies and the
z-score of 100 is only 2.5 < 6. -/
theorem c1_counterexample :
    ¬ ((detect_anomalies c1Series 6).map Prod.fst = [100]) := by
  rw [detect_c1_6]
  simp

/-- C1 (amended): on `[10,10,10,10,100]` the MAD is 0, so the detector
falls back to the population-standard-deviation z-score; the scores are
`[0,0,0,0,2.5]`, hence with threshold 6.0 no point is flagged, while
with threshold 2.5 exactly the point with value 100 is flagged. -/
theorem c1_amended :
    mad c1Series = 0 ∧
    modified_z_scores c1Series = [0, 0, 0, 0, 5/2] ∧
    detect_anomalies c1Series 6 = [] ∧
    detect_anomalies c1Series (5/2) = [(100, 5/2)] :=
  ⟨mad_c1, mz_c1, detect_c1_6, detect_c1_52⟩

/-! ## Partitioned columnar store: schema-reconciling merge
(`simple_pipeline.py`, `ingest_new_files`, lines 95-110)

A columnar table has named columns and positional rows; a cell is
`Option α` with `none` for SQL NULL.  A SQL column reference is resolved
against the source table's column list; referencing an absent column is
a binder error (`Except.error`), which is how a non-reconciled merge
would fail. -/

structure Table (α : Type) where
  cols : List String
  rows : List (List (Option α))
deriving Repr, DecidableEq

/-- index of the first column named `c` (SQL name resolution). -/
def colIdx (cols : List String) (c : String) : Option Nat :=
  match cols with
  | [] => none
  | c' :: cs => if c' = c then some 0 else (colIdx cs c).map (· + 1)

/-- value of column `c` in positional row `r` laid out by `cols`. -/
def cellAt (cols : List String) (r : List (Option α)) (c : String) : Option α :=
  match colIdx cols c with
  | some i => (r.get? i).getD none
  | none => none

/-- one entry of a SQL select list: a plain column reference or the
literal `NULL AS c`. -/
inductive SqlExpr
  | col (c : String)
  | nullLit
deriving Repr, DecidableEq

/-- evaluate a select-list entry against one row; an unresolved column
reference is a binder error. -/
def evalExpr (cols : List String) (r : List (Option α)) :
    SqlExpr → Except String (Option α)
  | .col c =>
    match colIdx cols c with
    | some i => .ok ((r.get? i).getD none)
    | none => .error ("Binder Error: column " ++ c ++ " not found")
  | .nullLit => .ok none

/-- `SELECT <exprs> FROM src`. -/
def projectRows (src : Table α) (exprs : List SqlExpr) :
    Except String (List (List (Option α))) :=
  src.rows.mapM fun r => exprs.mapM (evalExpr src.cols r)

/-- the select list the code builds for the new file:
`c if c in csv_set else "NULL AS c"` for each existing column. -/
def newSelectList (existingCols csvCols : List String) : List SqlExpr :=
  existingCols.map fun c => if c ∈ csvCols then SqlExpr.col c else SqlExpr.nullLit

/-- the schema-reconciling merge of `ingest_new_files`: project both the
existing partition and the new file onto the existing column list and
`UNION ALL` the results. -/
def merge_partition (existing newT : Table α) : Except String (Table α) := do
  let e ← projectRows existing (existing.cols.map SqlExpr.col)
  let n ← projectRows newT (newSelectList existing.cols newT.cols)
  pure ⟨existing.cols, e ++ n⟩

/-- projection of one row of the new file onto the existing column set:
columns the file lacks become NULL. -/
def projNewRow (existingCols csvCols : List String) (r : List (Option α)) :
    List (Option α) :=
  existingCols.map fun c => if c ∈ csvCols then cellAt csvCols r c else none

lemma colIdx_get (cols : List String) (c : String) (h : c ∈ cols) :
    ∃ i, colIdx cols c = some i ∧ cols.get? i = some c := by
  induction cols with
  | nil => cases h
  | cons c' cs ih =>
    by_cases hc : c' = c
    · exact ⟨0, by simp [colIdx, hc]⟩
    · have hmem : c ∈ cs := by
        rcases List.mem_cons.mp h with h1 | h1
        · exact absurd h1.symm hc
        · exact h1
      obtain ⟨i, hi, hg⟩ := ih hmem
      exact ⟨i + 1, by simp [colIdx, hc, hi], by simpa using hg⟩

lemma cellAt_map (cols : List String) (f : String → Option α) (c : String)
    (h : c ∈ cols) : cellAt cols (cols.map f) c = f c := by
  obtain ⟨i, hi, hg⟩ := colIdx_get cols c h
  rw [List.get?_eq_getElem?] at hg
  simp [cellAt, hi, List.getElem?_map, hg]

lemma evalExpr_col_ok (cols : List String) (r : List (Option α)) (c : String)
    (h : c ∈ cols) : evalExpr cols r (.col c) = .ok (cellAt cols r c) := by
  obtain ⟨i, hi, _⟩ := colIdx_get cols c h
  simp [evalExpr, cellAt, hi]

lemma mapM_ok_of_forall {β γ : Type} (l : List β) (f : β → Except String γ)
    (g : β → γ) (h : ∀ x ∈ l, f x = .ok (g x)) : l.mapM f = .ok (l.map g) := by
  induction l with
  | nil => rfl
  | cons x xs ih =>
    rw [List.mapM_cons, h x (by simp), ih fun y hy => h y (by simp [hy])]
    rfl

lemma mapM_map_ok {β β' γ : Type} (l : List β) (e : β → β')
    (f : β' → Except String γ) (g : β → γ) (h : ∀ x ∈ l, f (e x) = .ok (g x)) :
    (l.map e).mapM f = .ok (l.map g) := by
  induction l with
  | nil => rfl
  | cons x xs ih =>
    rw [List.map_cons, List.mapM_cons, h x (by simp),
        ih fun y hy => h y (by simp [hy])]
    rfl

lemma projectRows_ok (src : Table α) (exprs : List SqlExpr)
    (g : List (Option α) → List (Option α))
    (h : ∀ r ∈ src.rows, exprs.mapM (evalExpr src.cols r) = .ok (g r)) :
    projectRows src exprs = .ok (src.rows.map g) :=
  mapM_ok_of_forall _ _ _ h

lemma merge_partition_eq (existing newT : Table α) :
    merge_partition existing newT =
      .ok ⟨existing.cols,
           existing.rows.map (fun r => existing.cols.map (cellAt existing.cols r))
             ++ newT.rows.map (projNewRow existing.cols newT.cols)⟩ := by
  have he : projectRows existing (existing.cols.map SqlExpr.col) =
      .ok (existing.rows.map fun r => existing.cols.map (cellAt existing.cols r)) := by
    refine projectRows_ok _ _ _ fun r _ => ?_
    exact mapM_map_ok _ _ _ _ fun c hc => evalExpr_col_ok _ _ _ hc
  have hn : projectRows newT (newSelectList existing.cols newT.cols) =
      .ok (newT.rows.map (projNewRow existing.cols newT.cols)) := by
    refine projectRows_ok _ _ _ fun r _ => ?_
    rw [newSelectList]
    refine mapM_map_ok _ _ _ _ fun c _ => ?_
    by_cases hc : c ∈ newT.cols
    · simp only [hc, if_pos]
      exact evalExpr_col_ok _ _ _ hc
    · simp [hc, evalExpr]
  rw [merge_partition, he, hn]
  rfl

/-- C3: merging a newly discovered file into an existing day partition
never raises (neither in the subset-columns nor the extra-columns case),
and the merged partition has exactly the existing partition's column
set; the merged rows are the existing rows followed by the new rows
projected onto the existing columns, where a column absent from the new
file reads as NULL and a column present only in the new file does not
appear in the merged column set. -/
theorem c3_schema_reconciliation {α : Type} (existing newT : Table α) :
    ∃ m : Table α,
      merge_partition existing newT = .ok m ∧
      m.cols = existing.cols ∧
      m.rows = existing.rows.map (fun r => existing.cols.map (cellAt existing.cols r))
                 ++ newT.rows.map (projNewRow existing.cols newT.cols) ∧
      (∀ r ∈ newT.rows, ∀ c ∈ existing.cols, c ∉ newT.cols →
        cellAt m.cols (projNewRow existing.cols newT.cols r) c = none) ∧
      (∀ r ∈ newT.rows, ∀ c ∈ existing.cols, c ∈ newT.cols →
        cellAt m.cols (projNewRow existing.cols newT.cols r) c = cellAt newT.cols r c) ∧
      (∀ c ∈ newT.cols, c ∉ existing.cols → c ∉ m.cols) := by
  refine ⟨_, merge_partition_eq existing newT, rfl, rfl, ?_, ?_, ?_⟩
  · intro r _ c hc hnc
    rw [projNewRow, cellAt_map _ _ _ hc, if_neg hnc]
  · intro r _ c hc hcc
    rw [projNewRow, cellAt_map _ _ _ hc, if_pos hcc]
  · intro c _ hnc
    exact hnc

/-- C3 witness: a concrete merge where the new file both lacks the
existing column `ip` and carries an extra column `extra`; the merge
succeeds, keeps exactly the existing columns, NULLs the missing column
and drops the extra one. -/
theorem c3_witness :
    ∃ m : Table String,
      merge_partition ⟨["url", "ip"], [[some "/a", some "1.1.1.1"]]⟩
          ⟨["url", "extra"], [[some "/b", some "x"]]⟩ = .ok m ∧
      m.cols = ["url", "ip"] ∧
      m.rows = [[some "/a", some "1.1.1.1"], [some "/b", none]] ∧
      (∀ r ∈ [[(some "/b" : Option String), some "x"]], ∀ c ∈ ["url", "ip"],
        c ∉ ["url", "extra"] →
        cellAt m.cols (projNewRow ["url", "ip"] ["url", "extra"] r) c = none) ∧
      (∀ r ∈ [[(some "/b" : Option String), some "x"]], ∀ c ∈ ["url", "ip"],
        c ∈ ["url", "extra"] →
        cellAt m.cols (projNewRow ["url", "ip"] ["url", "extra"] r) c =
          cellAt ["url", "extra"] r c) ∧
      (∀ c ∈ ["url", "extra"], c ∉ ["url", "ip"] → c ∉ m.cols) := by
  obtain ⟨m, h1, h2, h3, h4, h5, h6⟩ :=
    c3_schema_reconciliation (α := String)
      ⟨["url", "ip"], [[some "/a", some "1.1.1.1"]]⟩
      ⟨["url", "extra"], [[some "/b", some "x"]]⟩
  refine ⟨m, h1, h2, ?_, h4, h5, h6⟩
  rw [h3]
  decide

/-! ## Partition replacement sequence (`ingest_new_files`, lines 102-121)

The file-system view relevant to one merge: the contents visible at the
partition path (`dt=….parquet`) and at the temp path (`….parquet.tmp`);
`none` means no file at the path.  The code performs, in order:
stale-tmp unlink, `COPY … TO tmp` (modelled as incremental writes of
longer and longer prefixes of the merged contents at the temp path),
`parquet_path.unlink()`, then `tmp_path.rename(parquet_path)`. -/

structure FsView (α : Type) where
  part : Option (List α)
  tmp : Option (List α)
deriving Repr, DecidableEq

/-- the sequence of file-system states a concurrent reader can observe
while `ingest_new_files` replaces the partition whose old contents are
`old` with merged contents `merged` (with a possible stale temp file). -/
def mergeReplaceTrace (old merged : List α) (staleTmp : Option (List α)) :
    List (FsView α) :=
  [⟨some old, staleTmp⟩, ⟨some old, none⟩]
    ++ (List.range (merged.length + 1)).map
         (fun k => ⟨some old, some (merged.take k)⟩)
    ++ [⟨none, some merged⟩, ⟨some merged, none⟩]

/-- C7 counterexample: the replacement is not an atomic rename over the
original — the code unlinks the original before renaming the temp file,
so for the merge of old contents `[0]` into merged contents `[0,1]`
there is an observable intermediate state (between `unlink` and
`rename`) in which no file at all is visible at the partition path,
refuting the claim that a reader always sees a complete partition file
there. -/
theorem c7_counterexample :
    ¬ (∀ s ∈ mergeReplaceTrace [0] [0, 1] (none : Option (List ℕ)),
        s.part = some [0] ∨ s.part = some [0, 1]) := by
  intro h
  have := h ⟨none, some [0, 1]⟩ (by simp [mergeReplaceTrace])
  simp at this

/-- C7 (amended): the merged contents are first written to a temporary
file, the original is unlinked, and the temp file is renamed into place;
at no intermediate point of the merge is a partially-written partition
file visible at the partition path — every state shows either the old
complete contents, the new complete merged contents, or (only in the
window between unlink and rename) no file at all — and the final state
has the merged contents at the partition path and no temp file. -/
theorem c7_no_partial_visible {α : Type} (old merged : List α)
    (staleTmp : Option (List α)) :
    (∀ s ∈ mergeReplaceTrace old merged staleTmp,
      ∀ c, s.part = some c → c = old ∨ c = merged) ∧
    (mergeReplaceTrace old merged staleTmp).getLast? =
      some ⟨some merged, none⟩ := by
  constructor
  · intro s hs c hc
    simp only [mergeReplaceTrace, List.mem_append, List.mem_cons,
      List.mem_map, List.mem_range, List.not_mem_nil, or_false,
      false_or] at hs
    rcases hs with ((rfl | rfl) | ⟨k, _, rfl⟩) | rfl | rfl <;> simp_all
  · have h : mergeReplaceTrace old merged staleTmp =
        ([(⟨some old, staleTmp⟩ : FsView α), (⟨some old, none⟩ : FsView α)]
          ++ (List.range (merged.length + 1)).map
               (fun k => (⟨some old, some (merged.take k)⟩ : FsView α))
          ++ [(⟨none, some merged⟩ : FsView α)]).concat
            (⟨some merged, none⟩ : FsView α) := by
      simp [mergeReplaceTrace, List.concat_eq_append]
    rw [h, List.concat_eq_append, List.getLast?_concat]

/-- C7 witness: the amended statement instantiated at a concrete merge
(old contents `[0]`, merged contents `[0,1]`, a stale temp file `[5]`). -/
theorem c7_witness :
    (∀ s ∈ mergeReplaceTrace [0] [0, 1] (some [5]),
      ∀ c, s.part = some c → c = [0] ∨ c = [0, 1]) ∧
    (mergeReplaceTrace [0] [0, 1] (some [5])).getLast? =
      some ⟨some [0, 1], none⟩ :=
  c7_no_partial_visible [0] [0, 1] (some [5])

/-! ## Row-level pipeline state machine
(`simple_pipeline.py`: `file_id`, `ingest_new_files`,
`update_daily_aggregates`)

Typed embedding of the ingestion / aggregation cycle.  A lake row
carries the fields the aggregation queries touch (`timestamp`, `ip`,
`query`), each nullable.  Timestamps are `Int` seconds since the epoch
and `date(ts)` is the floor-division day number, the SQL literal
`DATE '1970-01-01'` being day `0`.  `st_mtime` is modelled at
millisecond precision, so Python's `int(st.st_mtime)` is truncating
division by 1000.  The sha256 digest of `file_id` is modelled by its
preimage — the concatenation `str(path) + str(size) + str(int(mtime))`
that the code feeds to the hash. -/

inductive Source
  | page_count
  | search_logs
deriving DecidableEq, Repr

def dateOfTs (t : Int) : Int := t.fdiv 86400

structure LakeRow where
  ts : Option Int
  ip : Option String
  query : Option String
deriving DecidableEq, Repr

structure LakeEntry where
  src : Source
  fid : String
  pdt : Int
  row : LakeRow
deriving DecidableEq, Repr

structure ProcFile where
  src : Source
  dt : Int
  path : String
  fid : String
  rows : Nat
deriving DecidableEq, Repr

structure RawFile where
  src : Source
  dt : Int
  path : String
  size : Nat
  mtimeMs : Int
  content : List LakeRow
deriving DecidableEq, Repr

/-- `int(st.st_mtime)`: seconds, truncated toward zero. -/
def mtimeSec (ms : Int) : Int := ms.tdiv 1000

/-- `file_id` from `simple_pipeline.py`: the hash input
`str(path) + str(size) + str(int(st_mtime))`. -/
def file_id (f : RawFile) : String :=
  f.path ++ toString f.size ++ toString (mtimeSec f.mtimeMs)

structure PipeState where
  processed : List ProcFile
  lake : List LakeEntry
  pvd : List (Int × Nat × Nat)
  sd : List ((Int × String) × Nat)
deriving DecidableEq, Repr

def initState : PipeState := ⟨[], [], [], []⟩

def processedIds (st : PipeState) : List String := st.processed.map (·.fid)

/-- one iteration of the `ingest_new_files` loop: skip a file whose
fingerprint is already in `processed_files`, otherwise merge its rows
into the day partition (an append — see `merge_partition` for the
column-level view) and record it in `processed_files`. -/
def ingestFile (st : PipeState) (f : RawFile) : Nat × PipeState :=
  let fid := file_id f
  if fid ∈ processedIds st then (0, st)
  else
    (1, { st with
          lake := st.lake ++ f.content.map fun r => ⟨f.src, fid, f.dt, r⟩,
          processed := st.processed ++ [⟨f.src, f.dt, f.path, fid, f.content.length⟩] })

/-- `ingest_new_files`: fold over the discovered files, returning the
count of newly ingested files and the new state. -/
def ingest_new_files (st : PipeState) (files : List RawFile) : Nat × PipeState :=
  files.foldl
    (fun acc f => (acc.1 + (ingestFile acc.2 f).1, (ingestFile acc.2 f).2)) (0, st)

/-- rows of the per-source union view (`lake_page_count` /
`lake_search_logs`). -/
def lakeRows (st : PipeState) (s : Source) : List LakeRow :=
  (st.lake.filter fun e => e.src == s).map (·.row)

/-! SQL string functions used by the searches aggregation. -/

/-- RE2 `\s`. -/
def isSqlWs (c : Char) : Bool :=
  c == ' ' || c == '\t' || c == '\n' || c == '\r' || c == '\x0b' || c == '\x0c'

def collapseFirstWsAux : List Char → List Char
  | [] => []
  | c :: rest =>
    if isSqlWs c then ' ' :: rest.dropWhile isSqlWs
    else c :: collapseFirstWsAux rest

/-- DuckDB `regexp_replace(query, '\s+', ' ')` — without the `'g'` flag
only the FIRST whitespace run is replaced. -/
def regexpReplaceFirstWs (s : String) : String := ⟨collapseFirstWsAux s.data⟩

def dropTrailingSpaces : List Char → List Char
  | [] => []
  | c :: cs =>
    let r := dropTrailingSpaces cs
    if c == ' ' && r.isEmpty then [] else c :: r

/-- DuckDB `trim(x)`: strips space characters (U+0020) from both ends. -/
def sqlTrim (s : String) : String :=
  ⟨dropTrailingSpaces (s.data.dropWhile (· == ' '))⟩

/-- DuckDB `lower(x)` (ASCII case mapping suffices for this data). -/
def sqlLower (s : String) : String := ⟨s.data.map Char.toLower⟩

/-- the normalized query key
`lower(trim(regexp_replace(query, '\s+', ' ')))`. -/
def normQuery (s : String) : String := sqlLower (sqlTrim (regexpReplaceFirstWs s))

/-- the query-quality conjuncts of the searches WHERE clause:
`query IS NOT NULL AND length(trim(query)) > 0 AND
lower(trim(query)) <> 'null' AND
length(lower(trim(regexp_replace(query,'\s+',' ')))) > 1`. -/
def includeQuery : Option String → Bool
  | none => false
  | some s =>
    decide (0 < (sqlTrim s).length) &&
    decide (sqlLower (sqlTrim s) ≠ "null") &&
    decide (1 < (normQuery s).length)

/-! Grouping / upsert machinery (GROUP BY and INSERT OR REPLACE). -/

/-- accumulate a key if unseen (first-occurrence order). -/
def addKey {κ : Type} [DecidableEq κ] (acc : List κ) (k : κ) : List κ :=
  if k ∈ acc then acc else acc ++ [k]

/-- distinct keys in first-occurrence order. -/
def keysDedup {κ : Type} [DecidableEq κ] (ks : List κ) : List κ :=
  ks.foldl addKey []

/-- upsert one row by primary key (replace in place or append). -/
def upsertRow {κ β : Type} [DecidableEq κ]
    (acc : List (κ × β)) (kv : κ × β) : List (κ × β) :=
  if kv.1 ∈ acc.map Prod.fst then
    acc.map fun e => if e.1 = kv.1 then kv else e
  else acc ++ [kv]

/-- `INSERT OR REPLACE`: upsert each new row by primary key. -/
def upsert {κ β : Type} [DecidableEq κ]
    (tbl : List (κ × β)) (news : List (κ × β)) : List (κ × β) :=
  news.foldl upsertRow tbl

/-- the page-views selection: rows of `lake_page_count` with a non-NULL
timestamp whose date is beyond the mark, keyed by date, carrying the ip. -/
def pageSelect (st : PipeState) (mark : Int) : List (Int × Option String) :=
  (lakeRows st .page_count).filterMap fun r =>
    match r.ts with
    | some t => if mark < dateOfTs t then some (dateOfTs t, r.ip) else none
    | none => none

/-- `GROUP BY date`: `count(*)` and `count(DISTINCT ip)` (NULL ips are
not counted by `count(DISTINCT ip)`). -/
def pageGroups (sel : List (Int × Option String)) : List (Int × Nat × Nat) :=
  (keysDedup (sel.map Prod.fst)).map fun d =>
    let rows := sel.filter fun p => p.1 == d
    (d, rows.length, (keysDedup (rows.filterMap (·.2))).length)

/-- the searches selection: rows of `lake_search_logs` with a non-NULL
timestamp beyond the mark passing the query-quality filter, keyed by
(date, normalized query). -/
def searchSelect (st : PipeState) (mark : Int) : List (Int × String) :=
  (lakeRows st .search_logs).filterMap fun r =>
    match r.ts with
    | some t =>
      if mark < dateOfTs t && includeQuery r.query then
        some (dateOfTs t, normQuery (r.query.getD ""))
      else none
    | none => none

/-- `GROUP BY date, query`: `count(*)`. -/
def searchGroups (sel : List (Int × String)) : List ((Int × String) × Nat) :=
  (keysDedup sel).map fun k => (k, sel.count k)

/-- `COALESCE(max(dt), DATE '1970-01-01')` over `page_views_daily`. -/
def markP (st : PipeState) : Int := ((st.pvd.map (·.1)).max?).getD 0

/-- `COALESCE(max(dt), DATE '1970-01-01')` over `searches_daily`. -/
def markS (st : PipeState) : Int := ((st.sd.map (·.1.1)).max?).getD 0

/-- `update_daily_aggregates`: recompute both daily aggregates for dates
beyond their high-water marks and upsert the results.  (In the code the
searches insert runs on the post-page-views database; since the searches
selection and mark read only the lake and `searches_daily`, which the
page-views insert does not touch, the two upserts commute and are
written here side by side.) -/
def update_daily_aggregates (st : PipeState) : PipeState :=
  { st with
    pvd := upsert st.pvd (pageGroups (pageSelect st (markP st))),
    sd := upsert st.sd (searchGroups (searchSelect st (markS st))) }

/-- a batch operation of the core: an ingestion pass over the discovered
raw files, or an aggregation pass. -/
inductive BatchOp
  | ingest (files : List RawFile)
  | aggregate

def applyOp (st : PipeState) : BatchOp → PipeState
  | .ingest files => (ingest_new_files st files).2
  | .aggregate => update_daily_aggregates st

/-- the state after a sequence of completed batch operations, starting
from the empty store. -/
def runOps (ops : List BatchOp) : PipeState := ops.foldl applyOp initState

/-! ### Generic lemmas about grouping and upserting -/

lemma mem_foldl_addKey {κ : Type} [DecidableEq κ] (ks : List κ) (acc : List κ)
    (x : κ) (h : x ∈ ks.foldl addKey acc) : x ∈ acc ∨ x ∈ ks := by
  induction ks generalizing acc with
  | nil => exact Or.inl h
  | cons k rest ih =>
    rcases ih (addKey acc k) h with h1 | h1
    · rw [addKey] at h1
      split at h1
      · exact Or.inl h1
      · rcases List.mem_append.mp h1 with h2 | h2
        · exact Or.inl h2
        · simp at h2
          exact Or.inr (by simp [h2])
    · exact Or.inr (List.mem_cons_of_mem _ h1)

lemma keysDedup_subset {κ : Type} [DecidableEq κ] (ks : List κ) (x : κ)
    (h : x ∈ keysDedup ks) : x ∈ ks := by
  rcases mem_foldl_addKey ks [] x h with h1 | h1
  · cases h1
  · exact h1

lemma mem_upsert {κ β : Type} [DecidableEq κ] (tbl news : List (κ × β))
    (x : κ × β) (h : x ∈ upsert tbl news) : x ∈ tbl ∨ x ∈ news := by
  induction news generalizing tbl with
  | nil => exact Or.inl h
  | cons kv rest ih =>
    rcases ih (upsertRow tbl kv) h with h1 | h1
    · rw [upsertRow] at h1
      split at h1
      · obtain ⟨e, he, hex⟩ := List.mem_map.mp h1
        by_cases hk : e.1 = kv.1
        · rw [if_pos hk] at hex
          exact Or.inr (by simp [← hex])
        · rw [if_neg hk] at hex
          exact Or.inl (hex ▸ he)
      · rcases List.mem_append.mp h1 with h2 | h2
        · exact Or.inl h2
        · simp at h2
          exact Or.inr (by simp [h2])
    · exact Or.inr (List.mem_cons_of_mem _ h1)

lemma upsert_nil {κ β : Type} [DecidableEq κ] (tbl : List (κ × β)) :
    upsert tbl [] = tbl := rfl

/-! ### Lemmas about ingestion -/

lemma ingest_foldl (files : List RawFile) (acc : Nat × PipeState) :
    files.foldl
        (fun a f => (a.1 + (ingestFile a.2 f).1, (ingestFile a.2 f).2)) acc =
      (acc.1 + (ingest_new_files acc.2 files).1, (ingest_new_files acc.2 files).2) := by
  induction files generalizing acc with
  | nil => simp [ingest_new_files]
  | cons f rest ih =>
    rw [List.foldl_cons, ih]
    conv_rhs => rw [ingest_new_files, List.foldl_cons]
    rw [ih]
    simp [Nat.add_assoc]

lemma ingest_cons (st : PipeState) (f : RawFile) (rest : List RawFile) :
    ingest_new_files st (f :: rest) =
      ((ingestFile st f).1 + (ingest_new_files (ingestFile st f).2 rest).1,
       (ingest_new_files (ingestFile st f).2 rest).2) := by
  rw [ingest_new_files, List.foldl_cons, ingest_foldl]
  simp

lemma processedIds_ingestFile_mono (st : PipeState) (f : RawFile) (x : String)
    (h : x ∈ processedIds st) : x ∈ processedIds (ingestFile st f).2 := by
  rw [ingestFile]
  split
  · exact h
  · simp only [processedIds, List.map_append]
    exact List.mem_append_left _ h

lemma processedIds_ingest_mono (st : PipeState) (files : List RawFile)
    (x : String) (h : x ∈ processedIds st) :
    x ∈ processedIds (ingest_new_files st files).2 := by
  induction files generalizing st with
  | nil => exact h
  | cons f rest ih =>
    rw [ingest_cons]
    exact ih _ (processedIds_ingestFile_mono st f x h)

lemma file_id_mem_ingestFile (st : PipeState) (f : RawFile) :
    file_id f ∈ processedIds (ingestFile st f).2 := by
  rw [ingestFile]
  split
  · assumption
  · simp [processedIds]

lemma ingest_records_all (st : PipeState) (files : List RawFile) :
    ∀ f ∈ files, file_id f ∈ processedIds (ingest_new_files st files).2 := by
  induction files generalizing st with
  | nil => intro f hf; cases hf
  | cons g rest ih =>
    intro f hf
    rw [ingest_cons]
    rcases List.mem_cons.mp hf with rfl | hf'
    · exact processedIds_ingest_mono _ _ _ (file_id_mem_ingestFile st f)
    · exact ih _ f hf'

lemma ingest_noop (st : PipeState) (files : List RawFile)
    (h : ∀ f ∈ files, file_id f ∈ processedIds st) :
    ingest_new_files st files = (0, st) := by
  induction files with
  | nil => rfl
  | cons f rest ih =>
    have hf : ingestFile st f = (0, st) := by
      rw [ingestFile, if_pos (h f (by simp))]
    rw [ingest_cons, hf]
    simp [ih fun g hg => h g (by simp [hg])]

/-! ### Lemmas about aggregation -/

lemma pageSelect_empty (st : PipeState)
    (h : ∀ r ∈ lakeRows st .page_count, ∀ t, r.ts = some t →
      dateOfTs t ≤ markP st) :
    pageSelect st (markP st) = [] := by
  rw [pageSelect, List.filterMap_eq_nil_iff]
  intro r hr
  cases hts : r.ts with
  | none => rfl
  | some t =>
    simp only
    rw [if_neg (by exact not_lt.mpr (h r hr t hts))]

lemma searchSelect_empty (st : PipeState)
    (h : ∀ r ∈ lakeRows st .search_logs, ∀ t, r.ts = some t →
      dateOfTs t ≤ markS st) :
    searchSelect st (markS st) = [] := by
  rw [searchSelect, List.filterMap_eq_nil_iff]
  intro r hr
  cases hts : r.ts with
  | none => rfl
  | some t =>
    simp only
    rw [if_neg]
    simp [not_lt.mpr (h r hr t hts)]

lemma pageGroups_nil : pageGroups [] = [] := rfl

lemma searchGroups_nil : searchGroups [] = [] := rfl

lemma update_noop (st : PipeState)
    (hp : ∀ r ∈ lakeRows st .page_count, ∀ t, r.ts = some t →
      dateOfTs t ≤ markP st)
    (hs : ∀ r ∈ lakeRows st .search_logs, ∀ t, r.ts = some t →
      dateOfTs t ≤ markS st) :
    update_daily_aggregates st = st := by
  rw [update_daily_aggregates, pageSelect_empty st hp, searchSelect_empty st hs,
      pageGroups_nil, searchGroups_nil, upsert_nil, upsert_nil]

/-- C2: re-running ingestion over an unchanged raw tree (the same
discovered file list, hence the same fingerprints) ingests zero new
files and leaves the state unchanged, and re-running aggregation when no
lake row has a date beyond the stored high-water marks leaves
`page_views_daily` and `searches_daily` (indeed the whole state)
unchanged. -/
theorem c2_idempotence (st : PipeState) (files : List RawFile)
    (hp : ∀ r ∈ lakeRows st .page_count, ∀ t, r.ts = some t →
      dateOfTs t ≤ markP st)
    (hs : ∀ r ∈ lakeRows st .search_logs, ∀ t, r.ts = some t →
      dateOfTs t ≤ markS st) :
    ingest_new_files (ingest_new_files st files).2 files =
      (0, (ingest_new_files st files).2) ∧
    update_daily_aggregates st = st :=
  ⟨ingest_noop _ _ (ingest_records_all st files), update_noop st hp hs⟩

/-- the C2 witness raw file: one page-count row on day 1. -/
def c2File : RawFile :=
  ⟨.page_count, 1, "raw/page_count/dt=1970-01-02/a.csv", 10, 5100,
   [⟨some 86401, some "1.1.1.1", none⟩]⟩

/-- the C2 witness store: one ingested file, then one aggregation pass. -/
def c2State : PipeState :=
  update_daily_aggregates (ingest_new_files initState [c2File]).2

/-- C2 witness: at the concrete store `c2State` (whose single lake row's
date equals the stored mark) re-running ingestion over the unchanged
file list and re-running aggregation are both no-ops. -/
theorem c2_witness :
    ingest_new_files (ingest_new_files c2State [c2File]).2 [c2File] =
      (0, (ingest_new_files c2State [c2File]).2) ∧
    update_daily_aggregates c2State = c2State := by
  have hp : ∀ r ∈ lakeRows c2State .page_count, ∀ t, r.ts = some t →
      dateOfTs t ≤ markP c2State := by
    have e : lakeRows c2State .page_count =
        [⟨some 86401, some "1.1.1.1", none⟩] := by decide
    rw [e]
    intro r hr t ht
    fin_cases hr
    simp only at ht
    cases ht
    decide
  have hs : ∀ r ∈ lakeRows c2State .search_logs, ∀ t, r.ts = some t →
      dateOfTs t ≤ markS c2State := by
    have e : lakeRows c2State .search_logs = [] := by decide
    rw [e]
    intro r hr
    cases hr
  exact c2_idempotence c2State [c2File] hp hs

/-! ### The searches quality filter (claim C4) -/

lemma dropTrailingSpaces_nil_all (l : List Char)
    (h : dropTrailingSpaces l = []) : ∀ c ∈ l, c = ' ' := by
  induction l with
  | nil => simp
  | cons c cs ih =>
    simp only [dropTrailingSpaces] at h
    split at h
    · rename_i hcond
      rw [Bool.and_eq_true, beq_iff_eq, List.isEmpty_iff] at hcond
      intro x hx
      rcases List.mem_cons.mp hx with rfl | hx'
      · exact hcond.1
      · exact ih hcond.2 x hx'
    · cases h

lemma trim_empty_all_space (s : String) (h : sqlTrim s = "") :
    ∀ c ∈ s.data, c = ' ' := by
  have hd : dropTrailingSpaces (s.data.dropWhile (· == ' ')) = [] :=
    congrArg String.data h
  intro c hc
  rw [← List.takeWhile_append_dropWhile (p := (· == ' ')) (l := s.data)] at hc
  rcases List.mem_append.mp hc with h1 | h1
  · have h2 := List.mem_takeWhile_imp h1
    exact beq_iff_eq.mp h2
  · exact dropTrailingSpaces_nil_all _ hd c h1

lemma all_space_collapse (l : List Char) (h : ∀ c ∈ l, c = ' ') :
    collapseFirstWsAux l = [] ∨ collapseFirstWsAux l = [' '] := by
  cases l with
  | nil => exact Or.inl rfl
  | cons c cs =>
    right
    have hc : c = ' ' := h c (by simp)
    rw [collapseFirstWsAux, if_pos (show isSqlWs c = true by rw [hc]; rfl),
        List.dropWhile_eq_nil_iff.mpr
          fun x hx => show isSqlWs x = true by
            rw [h x (List.mem_cons_of_mem _ hx)]; rfl]

lemma trim_empty_norm_short (s : String) (h : sqlTrim s = "") :
    (normQuery s).length ≤ 1 := by
  rcases all_space_collapse s.data (trim_empty_all_space s h) with h1 | h1 <;>
    · rw [normQuery, regexpReplaceFirstWs, h1]
      decide

lemma norm_long_trim_pos (s : String) (h : 1 < (normQuery s).length) :
    0 < (sqlTrim s).length := by
  by_contra hc
  have h0 : sqlTrim s = "" := by
    have h1 : (sqlTrim s).data.length = 0 := Nat.le_zero.mp (not_lt.mp hc)
    exact String.ext (List.length_eq_zero.mp h1)
  exact absurd h (not_lt.mpr (trim_empty_norm_short s h0))

/-- the state of the C4 concrete instance: the four search queries
`"Cats"`, `" cats "`, `"cats"`, `"null"` on day 1 (all beyond an empty
mark). -/
def c4CatsState : PipeState :=
  ⟨[], [⟨.search_logs, "f", 1, ⟨some 86401, none, some "Cats"⟩⟩,
        ⟨.search_logs, "f", 1, ⟨some 86401, none, some " cats "⟩⟩,
        ⟨.search_logs, "f", 1, ⟨some 86401, none, some "cats"⟩⟩,
        ⟨.search_logs, "f", 1, ⟨some 86401, none, some "null"⟩⟩], [], []⟩

/-- a state whose single search row has the one-character query `"a"`
on day 1. -/
def c4AState : PipeState :=
  ⟨[], [⟨.search_logs, "f", 1, ⟨some 86401, none, some "a"⟩⟩], [], []⟩

/-- C4 counterexample: the claim's predicate "excluded iff the
normalized query is empty or the literal `null`" is false at the query
`"a"`: its normalized form is `"a"` (neither empty nor `"null"`), yet
the WHERE clause's extra `length(normalized) > 1` conjunct excludes the
row, so a lone day-1 row with query `"a"` beyond the mark produces no
`searches_daily` group at all. -/
theorem c4_counterexample :
    includeQuery (some "a") = false ∧
    normQuery "a" ≠ "" ∧ normQuery "a" ≠ "null" ∧
    searchGroups (searchSelect c4AState 0) = [] := by decide

/-- C4 (amended): a lake row with non-NULL timestamp beyond the searches
mark is excluded from the searches aggregation iff its query is NULL,
its normalized query (lower-cased, trimmed, first whitespace run
collapsed) has length at most 1 — which subsumes the empty case — or its
lower-cased trimmed query is the literal `"null"`; and the four queries
`"Cats"`, `" cats "`, `"cats"`, `"null"` on the same day yield exactly
the single group `(dt, "cats", 3)`. -/
theorem c4_search_filter :
    (∀ s : String, includeQuery (some s) = false ↔
      ((normQuery s).length ≤ 1 ∨ sqlLower (sqlTrim s) = "null")) ∧
    includeQuery none = false ∧
    searchGroups (searchSelect c4CatsState 0) = [((1, "cats"), 3)] := by
  refine ⟨fun s => ?_, rfl, by decide⟩
  rw [includeQuery, Bool.eq_false_iff, ne_eq]
  simp only [Bool.and_eq_true, decide_eq_true_eq]
  constructor
  · intro h
    by_cases hC : 1 < (normQuery s).length
    · by_cases hB : sqlLower (sqlTrim s) = "null"
      · exact Or.inr hB
      · exact absurd ⟨⟨norm_long_trim_pos s hC, hB⟩, hC⟩ h
    · exact Or.inl (not_lt.mp hC)
  · rintro (h | h) ⟨⟨hA, hB⟩, hC⟩
    · exact absurd hC (not_lt.mpr h)
    · exact hB h

/-- C4 witness: the amended equivalence instantiated at the query
`" NULL "` (trimmed-lowered to the sentinel, hence excluded). -/
theorem c4_witness :
    (includeQuery (some " NULL ") = false ↔
      ((normQuery " NULL ").length ≤ 1 ∨ sqlLower (sqlTrim " NULL ") = "null")) ∧
    includeQuery (some " NULL ") = false :=
  ⟨c4_search_filter.1 " NULL ", (c4_search_filter.1 " NULL ").mpr (by decide)⟩

/-! ### Aggregate-provenance invariant (claim C9) -/

/-- the C9 invariant: every lake (partition) row was merged by an ingest
iteration that also recorded its file in `processed_files` (so the
partitions consist solely of listed files' data), and every persisted
aggregate row's date is backed by at least one partition row of the
right source whose event timestamp falls on that date. -/
def PipeInv (st : PipeState) : Prop :=
  (∀ e ∈ st.lake, e.fid ∈ processedIds st) ∧
  (∀ p ∈ st.pvd, ∃ r ∈ lakeRows st .page_count,
    ∃ t, r.ts = some t ∧ dateOfTs t = p.1) ∧
  (∀ q ∈ st.sd, ∃ r ∈ lakeRows st .search_logs,
    ∃ t, r.ts = some t ∧ dateOfTs t = q.1.1)

lemma lakeRows_append (st : PipeState) (xs : List LakeEntry) (pr : List ProcFile)
    (s : Source) (r : LakeRow) (h : r ∈ lakeRows st s) :
    r ∈ lakeRows { st with lake := st.lake ++ xs, processed := pr } s := by
  simp only [lakeRows, List.filter_append, List.map_append]
  exact List.mem_append_left _ h

lemma inv_ingestFile (st : PipeState) (f : RawFile) (h : PipeInv st) :
    PipeInv (ingestFile st f).2 := by
  obtain ⟨h1, h2, h3⟩ := h
  rw [ingestFile]
  split
  · exact ⟨h1, h2, h3⟩
  · refine ⟨?_, ?_, ?_⟩
    · intro e he
      simp only [processedIds, List.map_append]
      rcases List.mem_append.mp he with he' | he'
      · exact List.mem_append_left _ (h1 e he')
      · refine List.mem_append_right _ ?_
        obtain ⟨r, _, rfl⟩ := List.mem_map.mp he'
        simp
    · intro p hp
      obtain ⟨r, hr, t, ht, hd⟩ := h2 p hp
      exact ⟨r, lakeRows_append st _ _ _ r hr, t, ht, hd⟩
    · intro q hq
      obtain ⟨r, hr, t, ht, hd⟩ := h3 q hq
      exact ⟨r, lakeRows_append st _ _ _ r hr, t, ht, hd⟩

lemma inv_ingest (st : PipeState) (files : List RawFile) (h : PipeInv st) :
    PipeInv (ingest_new_files st files).2 := by
  induction files generalizing st with
  | nil => exact h
  | cons f rest ih =>
    rw [ingest_cons]
    exact ih _ (inv_ingestFile st f h)

lemma pageGroups_date_backed (st : PipeState) (mark : Int)
    (p : Int × Nat × Nat) (hp : p ∈ pageGroups (pageSelect st mark)) :
    ∃ r ∈ lakeRows st .page_count, ∃ t, r.ts = some t ∧ dateOfTs t = p.1 := by
  obtain ⟨d, hd, rfl⟩ := List.mem_map.mp hp
  obtain ⟨pr, hpr, hfst⟩ := List.mem_map.mp (keysDedup_subset _ _ hd)
  obtain ⟨r, hr, hf⟩ := List.mem_filterMap.mp hpr
  refine ⟨r, hr, ?_⟩
  cases hts : r.ts with
  | none => rw [hts] at hf; cases hf
  | some t =>
    rw [hts] at hf
    simp only at hf
    split at hf
    · cases hf
      exact ⟨t, rfl, hfst⟩
    · cases hf

lemma searchGroups_date_backed (st : PipeState) (mark : Int)
    (q : (Int × String) × Nat) (hq : q ∈ searchGroups (searchSelect st mark)) :
    ∃ r ∈ lakeRows st .search_logs, ∃ t, r.ts = some t ∧ dateOfTs t = q.1.1 := by
  obtain ⟨k, hk, rfl⟩ := List.mem_map.mp hq
  obtain ⟨r, hr, hf⟩ := List.mem_filterMap.mp (keysDedup_subset _ _ hk)
  refine ⟨r, hr, ?_⟩
  cases hts : r.ts with
  | none => rw [hts] at hf; cases hf
  | some t =>
    rw [hts] at hf
    simp only at hf
    split at hf
    · cases hf
      exact ⟨t, rfl, rfl⟩
    · cases hf

lemma inv_update (st : PipeState) (h : PipeInv st) :
    PipeInv (update_daily_aggregates st) := by
  obtain ⟨h1, h2, h3⟩ := h
  refine ⟨h1, ?_, ?_⟩
  · intro p hp
    rcases mem_upsert _ _ _ hp with hp' | hp'
    · exact h2 p hp'
    · exact pageGroups_date_backed st _ p hp'
  · intro q hq
    rcases mem_upsert _ _ _ hq with hq' | hq'
    · exact h3 q hq'
    · exact searchGroups_date_backed st _ q hq'

lemma inv_init : PipeInv initState := by
  refine ⟨?_, ?_, ?_⟩ <;> intro x hx <;> cases hx

/-- C9: after every sequence of completed batch operations (ingestion
passes and aggregation passes) starting from the empty store, every lake
row's file is listed in `processed_files` — so aggregate rows are
derivable solely from listed partitions — and every row of
`page_views_daily` and `searches_daily` is for a date with at least one
corresponding partition row. -/
theorem c9_aggregate_provenance (ops : List BatchOp) : PipeInv (runOps ops) := by
  have hstep : ∀ (sts : List BatchOp) (st : PipeState),
      PipeInv st → PipeInv (sts.foldl applyOp st) := by
    intro sts
    induction sts with
    | nil => exact fun st h => h
    | cons op rest ih =>
      intro st h
      rw [List.foldl_cons]
      refine ih _ ?_
      cases op with
      | ingest files => exact inv_ingest st files h
      | aggregate => exact inv_update st h
  exact hstep ops initState inv_init

/-- C9 witness: the invariant holds at the state reached by a concrete
batch (one ingested page-count file, then an aggregation pass). -/
theorem c9_witness :
    PipeInv (runOps [.ingest [⟨.page_count, 1, "raw/p.csv", 7, 5100,
      [⟨some 86401, some "1.1.1.1", none⟩]⟩], .aggregate]) :=
  c9_aggregate_provenance _

/-! ### Pure-append merge and the weak fingerprint (claim C10) -/

/-- the C10 raw file at a given mtime (milliseconds): two rows of
page-count data for day 0, path `"p"`, size 3. -/
def c10File (ms : Int) : RawFile :=
  ⟨.page_count, 0, "p", 3, ms, [⟨some 86400, some "a", none⟩,
                                ⟨some 86400, some "b", none⟩]⟩

/-- the store after first ingesting the file with mtime 5.100 s. -/
def c10Base : PipeState := (ingest_new_files initState [c10File 5100]).2

/-- C10 counterexample: re-ingesting the same file after its mtime
changed from 5.100 s to 5.900 s (content unchanged) does NOT duplicate
its rows: the fingerprint hashes the mtime truncated to seconds, so the
sub-second change leaves the fingerprint unchanged, the file is skipped,
and the partition still has its original 2 rows. -/
theorem c10_counterexample :
    (c10File 5900).mtimeMs ≠ (c10File 5100).mtimeMs ∧
    (c10File 5900).content = (c10File 5100).content ∧
    file_id (c10File 5900) = file_id (c10File 5100) ∧
    ingest_new_files c10Base [c10File 5900] = (0, c10Base) ∧
    c10Base.lake.length = 2 := by decide

/-- C10 (amended): the merge into an existing day partition is a pure
append with no row deduplication — the merged partition's row count is
the existing count plus the new file's count — and any re-ingested file
whose fingerprint is not yet recorded (in particular one whose
truncated-to-seconds mtime changed) has every one of its rows appended
again; a concrete re-ingest of the same content at mtime 6.100 s doubles
the partition's rows from 2 to 4, while a sub-second mtime change leaves
the fingerprint unchanged and the file is skipped. -/
theorem c10_append_no_dedup :
    (∀ (existing newT : Table String), ∃ m,
      merge_partition existing newT = .ok m ∧
      m.rows.length = existing.rows.length + newT.rows.length) ∧
    (∀ (st : PipeState) (g : RawFile), file_id g ∉ processedIds st →
      (ingestFile st g).2.lake =
        st.lake ++ g.content.map (fun r => ⟨g.src, file_id g, g.dt, r⟩) ∧
      (ingestFile st g).2.lake.length = st.lake.length + g.content.length) ∧
    (ingest_new_files c10Base [c10File 6100]).2.lake.length = 4 ∧
    (ingest_new_files c10Base [c10File 6100]).2.lake =
      c10Base.lake ++ (c10File 6100).content.map
        (fun r => ⟨.page_count, file_id (c10File 6100), 0, r⟩) := by
  refine ⟨?_, ?_, by decide, by decide⟩
  · intro existing newT
    exact ⟨_, merge_partition_eq existing newT, by simp⟩
  · intro st g hg
    rw [ingestFile, if_neg hg]
    exact ⟨rfl, by simp⟩

/-- C10 witness: the append-no-dedup statement applied at the concrete
store `c10Base` and the file re-discovered at mtime 6.100 s, whose
fingerprint is new. -/
theorem c10_witness :
    (ingestFile c10Base (c10File 6100)).2.lake =
      c10Base.lake ++ (c10File 6100).content.map
        (fun r => ⟨(c10File 6100).src, file_id (c10File 6100),
                   (c10File 6100).dt, r⟩) ∧
    (ingestFile c10Base (c10File 6100)).2.lake.length =
      c10Base.lake.length + (c10File 6100).content.length :=
  c10_append_no_dedup.2.1 c10Base (c10File 6100) (by decide)

/-! ## Report generator (`simple_pipeline.py`, `run_simple_reports`)

The SQL engine is abstracted as `exec : String → Except String Csv`.
File contents are lists of lines; the reports directory, the `out`
row-count map and the `views_created` map are Python-dict-style
key-value lists (assign replaces in place or appends). -/

structure Csv where
  header : String
  dataRows : List String
deriving DecidableEq, Repr

/-- the lines of the CSV artifact `COPY (…) TO target (HEADER TRUE)`
writes. -/
def renderCsv (c : Csv) : List String := c.header :: c.dataRows

def setKV {β : Type} : List (String × β) → String → β → List (String × β)
  | [], k, v => [(k, v)]
  | (k', v') :: rest, k, v =>
    if k' = k then (k, v) :: rest else (k', v') :: setKV rest k v

def getKV {β : Type} : List (String × β) → String → Option β
  | [], _ => none
  | (k', v') :: rest, k => if k' = k then some v' else getKV rest k

structure ReportsAcc where
  fs : List (String × List String)
  out : List (String × Nat)
  views : List (String × Bool)
deriving DecidableEq, Repr

/-- one iteration of the `run_simple_reports` loop for the report
`(name, sql)`: the `busiest_hours_utc` report swaps in the dynamically
generated SQL `dyn` (writing a fixed header and recording failure when
`dyn` is `none`); otherwise the query is executed — on success the CSV
is written and a view recorded, on failure a `col` placeholder is
written only if no file exists at the target, the report is recorded
with row count 0, and the loop continues. -/
def runReportStep (exec : String → Except String Csv) (dyn : Option String)
    (acc : ReportsAcc) (rep : String × String) : ReportsAcc :=
  let name := rep.1
  let csvName := name ++ ".csv"
  let eff : Option String :=
    if name = "busiest_hours_utc" then dyn else some rep.2
  match eff with
  | none =>
    ⟨setKV acc.fs csvName ["hour_utc,cnt"],
     setKV acc.out csvName 0,
     setKV acc.views ("v_" ++ name) false⟩
  | some sql =>
    match exec sql with
    | .ok csv =>
      ⟨setKV acc.fs csvName (renderCsv csv),
       setKV acc.out csvName ((renderCsv csv).length - 1),
       setKV acc.views ("v_" ++ name) true⟩
    | .error _ =>
      ⟨(match getKV acc.fs csvName with
        | some _ => acc.fs
        | none => setKV acc.fs csvName ["col"]),
       setKV acc.out csvName 0,
       setKV acc.views ("v_" ++ name) false⟩

/-- `run_simple_reports` over the declared reports, starting from the
reports directory `fs0`. -/
def run_simple_reports (exec : String → Except String Csv) (dyn : Option String)
    (fs0 : List (String × List String)) (reports : List (String × String)) :
    ReportsAcc :=
  reports.foldl (runReportStep exec dyn) ⟨fs0, [], []⟩

lemma getKV_setKV_eq {β : Type} (l : List (String × β)) (k : String) (v : β) :
    getKV (setKV l k v) k = some v := by
  induction l with
  | nil => simp [setKV, getKV]
  | cons e rest ih =>
    obtain ⟨a, b⟩ := e
    rw [setKV]
    by_cases hak : a = k
    · rw [if_pos hak, getKV, if_pos rfl]
    · rw [if_neg hak, getKV, if_neg hak]
      exact ih

lemma getKV_setKV_ne {β : Type} (l : List (String × β)) (k k' : String) (v : β)
    (h : k' ≠ k) : getKV (setKV l k v) k' = getKV l k' := by
  induction l with
  | nil =>
    rw [setKV, getKV, getKV, if_neg fun he => h he.symm, getKV]
  | cons e rest ih =>
    obtain ⟨a, b⟩ := e
    rw [setKV]
    by_cases hak : a = k
    · rw [if_pos hak, getKV, if_neg fun he => h he.symm, getKV,
          if_neg (by rw [hak]; exact fun he => h he.symm)]
    · rw [if_neg hak, getKV, getKV]
      by_cases hak' : a = k'
      · rw [if_pos hak', if_pos hak']
      · rw [if_neg hak', if_neg hak', ih]

lemma csvKey_ne (m n : String) (h : m ≠ n) : m ++ ".csv" ≠ n ++ ".csv" := by
  intro he
  apply h
  have hd := congrArg String.data he
  rw [String.data_append, String.data_append] at hd
  exact String.ext (List.append_cancel_right hd)

lemma viewKey_ne (m n : String) (h : m ≠ n) : "v_" ++ m ≠ "v_" ++ n := by
  intro he
  apply h
  have hd := congrArg String.data he
  rw [String.data_append, String.data_append] at hd
  exact String.ext (List.append_cancel_left hd)

/-- a step for report `m` only touches the keys `m ++ ".csv"` and
`"v_" ++ m`. -/
lemma step_other (exec : String → Except String Csv) (dyn : Option String)
    (acc : ReportsAcc) (m : String) (msql : String) (n : String) (h : m ≠ n) :
    getKV (runReportStep exec dyn acc (m, msql)).fs (n ++ ".csv") =
      getKV acc.fs (n ++ ".csv") ∧
    getKV (runReportStep exec dyn acc (m, msql)).out (n ++ ".csv") =
      getKV acc.out (n ++ ".csv") ∧
    getKV (runReportStep exec dyn acc (m, msql)).views ("v_" ++ n) =
      getKV acc.views ("v_" ++ n) := by
  have hc := (csvKey_ne m n h).symm
  have hv := (viewKey_ne m n h).symm
  rw [runReportStep]
  rcases hdy : (if m = "busiest_hours_utc" then dyn else some msql) with _ | sql
  · dsimp only
    exact ⟨getKV_setKV_ne _ _ _ _ hc, getKV_setKV_ne _ _ _ _ hc,
      getKV_setKV_ne _ _ _ _ hv⟩
  · dsimp only
    rcases hex : exec sql with e | csv
    · dsimp only
      refine ⟨?_, getKV_setKV_ne _ _ _ _ hc, getKV_setKV_ne _ _ _ _ hv⟩
      rcases hget : getKV acc.fs (m ++ ".csv") with _ | old
      · dsimp only
        exact getKV_setKV_ne _ _ _ _ hc
      · rfl
    · dsimp only
      exact ⟨getKV_setKV_ne _ _ _ _ hc, getKV_setKV_ne _ _ _ _ hc,
        getKV_setKV_ne _ _ _ _ hv⟩

/-- later steps for other reports do not disturb report `n`'s keys. -/
lemma fold_frame (exec : String → Except String Csv) (dyn : Option String)
    (rest : List (String × String)) (acc : ReportsAcc) (n : String)
    (h : n ∉ rest.map Prod.fst) :
    getKV (rest.foldl (runReportStep exec dyn) acc).fs (n ++ ".csv") =
      getKV acc.fs (n ++ ".csv") ∧
    getKV (rest.foldl (runReportStep exec dyn) acc).out (n ++ ".csv") =
      getKV acc.out (n ++ ".csv") ∧
    getKV (rest.foldl (runReportStep exec dyn) acc).views ("v_" ++ n) =
      getKV acc.views ("v_" ++ n) := by
  induction rest generalizing acc with
  | nil => exact ⟨rfl, rfl, rfl⟩
  | cons r rs ih =>
    have hmn : r.1 ≠ n := fun he => h (by simp [← he])
    have h1 := step_other exec dyn acc r.1 r.2 n hmn
    have h2 := ih (runReportStep exec dyn acc (r.1, r.2))
      (fun hn => h (List.mem_cons_of_mem _ hn))
    rw [List.foldl_cons]
    exact ⟨by rw [h2.1, h1.1], by rw [h2.2.1, h1.2.1], by rw [h2.2.2, h1.2.2]⟩

/-- the step for report `n` itself (not the dynamic report), at its own
keys. -/
lemma step_self (exec : String → Except String Csv) (dyn : Option String)
    (acc : ReportsAcc) (n sql : String) (hne : n ≠ "busiest_hours_utc") :
    (∀ e, exec sql = .error e →
      getKV (runReportStep exec dyn acc (n, sql)).fs (n ++ ".csv") =
        (match getKV acc.fs (n ++ ".csv") with
         | some old => some old
         | none => some ["col"]) ∧
      getKV (runReportStep exec dyn acc (n, sql)).out (n ++ ".csv") = some 0 ∧
      getKV (runReportStep exec dyn acc (n, sql)).views ("v_" ++ n) = some false) ∧
    (∀ csv, exec sql = .ok csv →
      getKV (runReportStep exec dyn acc (n, sql)).fs (n ++ ".csv") =
        some (renderCsv csv) ∧
      getKV (runReportStep exec dyn acc (n, sql)).out (n ++ ".csv") =
        some csv.dataRows.length ∧
      getKV (runReportStep exec dyn acc (n, sql)).views ("v_" ++ n) = some true) := by
  rw [runReportStep]
  simp only [if_neg hne]
  constructor
  · intro e hex
    rw [hex]
    dsimp only
    refine ⟨?_, getKV_setKV_eq _ _ _, getKV_setKV_eq _ _ _⟩
    rcases hget : getKV acc.fs (n ++ ".csv") with _ | old
    · dsimp only
      exact getKV_setKV_eq _ _ _
    · dsimp only
      exact hget
  · intro csv hex
    rw [hex]
    dsimp only
    refine ⟨getKV_setKV_eq _ _ _, ?_, getKV_setKV_eq _ _ _⟩
    rw [getKV_setKV_eq]
    simp [renderCsv]

/-- C5 (amended): the report generator isolates failures: for every
declared report (other than the dynamically generated
`busiest_hours_utc`) whose query fails, the batch does not abort — the
report is recorded with row count 0 and its view marked failed, and a
header-only placeholder `col` CSV is written ONLY when no CSV already
exists at the target path (a stale CSV from an earlier run is left in
place) — while every other declared report whose query succeeds still
gets its full CSV artifact, its row count, and its registered view,
including on re-runs over any pre-existing reports directory. -/
theorem c5_failure_isolation (exec : String → Except String Csv)
    (dyn : Option String) (fs0 : List (String × List String))
    (reports : List (String × String))
    (hnodup : (reports.map Prod.fst).Nodup) :
    ∀ n sql, (n, sql) ∈ reports → n ≠ "busiest_hours_utc" →
      (∀ e, exec sql = .error e →
        getKV (run_simple_reports exec dyn fs0 reports).fs (n ++ ".csv") =
          (match getKV fs0 (n ++ ".csv") with
           | some old => some old
           | none => some ["col"]) ∧
        getKV (run_simple_reports exec dyn fs0 reports).out (n ++ ".csv") =
          some 0 ∧
        getKV (run_simple_reports exec dyn fs0 reports).views ("v_" ++ n) =
          some false) ∧
      (∀ csv, exec sql = .ok csv →
        getKV (run_simple_reports exec dyn fs0 reports).fs (n ++ ".csv") =
          some (renderCsv csv) ∧
        getKV (run_simple_reports exec dyn fs0 reports).out (n ++ ".csv") =
          some csv.dataRows.length ∧
        getKV (run_simple_reports exec dyn fs0 reports).views ("v_" ++ n) =
          some true) := by
  suffices hgen : ∀ (reports : List (String × String)) (acc : ReportsAcc),
      (reports.map Prod.fst).Nodup →
      ∀ n sql, (n, sql) ∈ reports → n ≠ "busiest_hours_utc" →
      (∀ e, exec sql = .error e →
        getKV (reports.foldl (runReportStep exec dyn) acc).fs (n ++ ".csv") =
          (match getKV acc.fs (n ++ ".csv") with
           | some old => some old
           | none => some ["col"]) ∧
        getKV (reports.foldl (runReportStep exec dyn) acc).out (n ++ ".csv") =
          some 0 ∧
        getKV (reports.foldl (runReportStep exec dyn) acc).views ("v_" ++ n) =
          some false) ∧
      (∀ csv, exec sql = .ok csv →
        getKV (reports.foldl (runReportStep exec dyn) acc).fs (n ++ ".csv") =
          some (renderCsv csv) ∧
        getKV (reports.foldl (runReportStep exec dyn) acc).out (n ++ ".csv") =
          some csv.dataRows.length ∧
        getKV (reports.foldl (runReportStep exec dyn) acc).views ("v_" ++ n) =
          some true) by
    intro n sql hmem hne
    exact hgen reports ⟨fs0, [], []⟩ hnodup n sql hmem hne
  intro reports
  induction reports with
  | nil => intro acc _ n sql hmem; cases hmem
  | cons r rs ih =>
    intro acc hnodup n sql hmem hne
    rw [List.map_cons, List.nodup_cons] at hnodup
    rcases List.mem_cons.mp hmem with heq | hmem'
    · subst heq
      have hstep := step_self exec dyn acc n sql hne
      have hframe := fold_frame exec dyn rs
        (runReportStep exec dyn acc (n, sql)) n (by simpa using hnodup.1)
      rw [List.foldl_cons]
      constructor
      · intro e hex
        obtain ⟨f1, f2, f3⟩ := hstep.1 e hex
        exact ⟨by rw [hframe.1, f1], by rw [hframe.2.1, f2],
               by rw [hframe.2.2, f3]⟩
      · intro csv hex
        obtain ⟨f1, f2, f3⟩ := hstep.2 csv hex
        exact ⟨by rw [hframe.1, f1], by rw [hframe.2.1, f2],
               by rw [hframe.2.2, f3]⟩
    · have hmn : r.1 ≠ n := by
        intro he
        exact hnodup.1 (he ▸ List.mem_map.mpr ⟨(n, sql), hmem', rfl⟩)
      have hother := step_other exec dyn acc r.1 r.2 n hmn
      have := ih (runReportStep exec dyn acc (r.1, r.2)) hnodup.2 n sql hmem' hne
      rw [List.foldl_cons]
      constructor
      · intro e hex
        obtain ⟨f1, f2, f3⟩ := this.1 e hex
        exact ⟨by rw [f1, hother.1], by rw [f2], by rw [f3]⟩
      · intro csv hex
        obtain ⟨f1, f2, f3⟩ := this.2 csv hex
        exact ⟨by rw [f1], by rw [f2], by rw [f3]⟩

/-- an abstract SQL engine for the C5 instances: one good query, all
others fail. -/
def c5Exec : String → Except String Csv := fun s =>
  if s = "good_sql" then .ok ⟨"a,b", ["1,2"]⟩ else .error "Binder Error"

/-- a re-run over a reports directory already holding a full CSV for the
(now broken) report. -/
def c5StaleRun : ReportsAcc :=
  run_simple_reports c5Exec none [("broken.csv", ["a,b", "1,2"])]
    [("broken", "bad_sql")]

/-- C5 counterexample: when the failing report's CSV already exists from
an earlier run, NO header-only placeholder is written in its place — the
stale full CSV is left untouched (the code writes the placeholder only
`if not target.exists()`), refuting the claim that a failing report's
output is replaced by a header-only placeholder CSV. -/
theorem c5_counterexample :
    getKV c5StaleRun.fs "broken.csv" = some ["a,b", "1,2"] ∧
    getKV c5StaleRun.fs "broken.csv" ≠ some ["col"] ∧
    getKV c5StaleRun.out "broken.csv" = some 0 := by decide

/-- a fresh run with one broken and one good report. -/
def c5Run : ReportsAcc :=
  run_simple_reports c5Exec none []
    [("broken", "bad_sql"), ("daily", "good_sql")]

/-- C5 witness: the failure-isolation theorem applied to the concrete
batch `c5Run`: the broken report gets a `col` placeholder (its target
did not exist), row count 0 and a failed view, while the good report
still produces its full CSV, row count 1 and its view. -/
theorem c5_witness :
    getKV c5Run.fs ("broken" ++ ".csv") = some ["col"] ∧
    getKV c5Run.out ("broken" ++ ".csv") = some 0 ∧
    getKV c5Run.views ("v_" ++ "broken") = some false ∧
    getKV c5Run.fs ("daily" ++ ".csv") = some ["a,b", "1,2"] ∧
    getKV c5Run.out ("daily" ++ ".csv") = some 1 ∧
    getKV c5Run.views ("v_" ++ "daily") = some true := by
  have h1 := c5_failure_isolation c5Exec none []
    [("broken", "bad_sql"), ("daily", "good_sql")] (by decide)
    "broken" "bad_sql" (by simp) (by decide)
  have h2 := c5_failure_isolation c5Exec none []
    [("broken", "bad_sql"), ("daily", "good_sql")] (by decide)
    "daily" "good_sql" (by simp) (by decide)
  obtain ⟨f1, f2, f3⟩ := h1.1 "Binder Error" rfl
  obtain ⟨g1, g2, g3⟩ := h2.2 ⟨"a,b", ["1,2"]⟩ rfl
  exact ⟨f1, f2, f3, g1, g2, g3⟩

/-! ## Silver enrichment stage (`simple_pipeline.py`, `simple_refresh`,
lines 389-485)

The enrichment is the pandas block building `silver_page_count`.  The
user-agent classifier (the `user_agents` library, or the in-source
fallback heuristic `_fallback_parse`) is a parameter
`enrich : String → List (Option String)` producing the ten enrichment
values; `pd.to_datetime(...).dt.date` is a parameter `toDate`.  A pandas
column assignment `df[c] = vals` overwrites an existing column in place
or appends a new one. -/

def ENRICH_COLS : List String :=
  ["agent_type", "os", "os_version", "browser", "browser_version",
   "device", "is_mobile", "is_tablet", "is_pc", "is_bot"]

/-- pandas `df[c] = vals`. -/
def dfSet (t : Table String) (c : String) (vals : List (Option String)) :
    Table String :=
  match colIdx t.cols c with
  | some i => ⟨t.cols, t.rows.zipWith (fun r v => r.set i v) vals⟩
  | none => ⟨t.cols ++ [c], t.rows.zipWith (fun r v => r ++ [v]) vals⟩

/-- `df['user_agent'].fillna('')` for one row. -/
def uaOf (t : Table String) (r : List (Option String)) : String :=
  (cellAt t.cols r "user_agent").getD ""

/-- the ten `df[...] = parsed.map(...)` assignments. -/
def enrichTable (enrich : String → List (Option String)) (t : Table String) :
    Table String :=
  let parsed := t.rows.map fun r => enrich (uaOf t r)
  ENRICH_COLS.enum.foldl
    (fun acc kc => dfSet acc kc.2 (parsed.map fun p => (p.get? kc.1).getD none))
    t

/-- the `dt` derivation: from `timestamp` if present, else from an
existing `dt` column, else all-NULL. -/
def dtVals (toDate : Option String → Option String) (t : Table String) :
    List (Option String) :=
  if "timestamp" ∈ t.cols then t.rows.map fun r => toDate (cellAt t.cols r "timestamp")
  else if "dt" ∈ t.cols then t.rows.map fun r => toDate (cellAt t.cols r "dt")
  else t.rows.map fun _ => none

/-- the silver enrichment stage: with a `user_agent` column and data,
enrich every row (and derive `dt`); with a `user_agent` column and no
rows, or without a `user_agent` column, the view is
`SELECT *, NULL AS <enrichment columns> FROM lake_page_count WHERE 0=1`
— the enrichment columns are present but ZERO rows are exposed. -/
def silver_page_count (enrich : String → List (Option String))
    (toDate : Option String → Option String) (raw : Table String) :
    Table String :=
  if "user_agent" ∈ raw.cols then
    if raw.rows = [] then ⟨raw.cols ++ ENRICH_COLS, []⟩
    else dfSet (enrichTable enrich raw) "dt" (dtVals toDate raw)
  else ⟨raw.cols ++ ENRICH_COLS, []⟩

/-- `_fallback_parse` from `simple_refresh`: the deterministic
substring-heuristic user-agent classifier (numeric flags rendered as
`"0"`/`"1"`). -/
def isPrefixChars : List Char → List Char → Bool
  | [], _ => true
  | _ :: _, [] => false
  | a :: as, b :: bs => a == b && isPrefixChars as bs

def listContainsSub : List Char → List Char → Bool
  | l, sub =>
    if isPrefixChars sub l then true
    else match l with
      | [] => sub.isEmpty
      | _ :: rest => listContainsSub rest sub

def containsSub (s sub : String) : Bool := listContainsSub s.data sub.data

def fallbackParse (ua : String) : List (Option String) :=
  if ua = "" then
    [some "unknown", some "unknown", some "", some "unknown", some "",
     some "unknown", some "0", some "0", some "0", some "0"]
  else
    let u := sqlLower ua
    let agent_type :=
      if containsSub u "bot" || containsSub u "spider" || containsSub u "crawl"
      then "bot" else "human"
    let os_name :=
      if containsSub u "windows" then "windows"
      else if containsSub u "android" then "android"
      else if containsSub u "linux" then "linux"
      else if containsSub u "mac os" || containsSub u "macintosh" then "mac"
      else "unknown"
    let browser :=
      if containsSub u "chrome/" then "chrome"
      else if containsSub u "firefox/" then "firefox"
      else if containsSub u "safari/" then "safari"
      else "unknown"
    let device :=
      if containsSub u "mobile" then "mobile"
      else if containsSub u "tablet" then "tablet"
      else if os_name = "windows" || os_name = "linux" || os_name = "mac" then "pc"
      else "unknown"
    [some agent_type, some os_name, some "", some browser, some "", some device,
     some (if device = "mobile" then "1" else "0"),
     some (if device = "tablet" then "1" else "0"),
     some (if device = "pc" then "1" else "0"),
     some (if agent_type = "bot" then "1" else "0")]

lemma colIdx_none (cols : List String) (c : String) (h : c ∉ cols) :
    colIdx cols c = none := by
  induction cols with
  | nil => rfl
  | cons c' cs ih =>
    rw [colIdx, if_neg fun he => h (by simp [he]),
        ih fun hm => h (List.mem_cons_of_mem _ hm)]
    rfl

lemma dfSet_fresh (t : Table String) (c : String) (vals : List (Option String))
    (hc : c ∉ t.cols) (hlen : vals.length = t.rows.length) :
    (dfSet t c vals).cols = t.cols ++ [c] ∧
    (dfSet t c vals).rows.length = t.rows.length := by
  rw [dfSet, colIdx_none _ _ hc]
  exact ⟨rfl, by simp [List.length_zipWith, hlen]⟩

lemma fold_dfSet_fresh (L : List (Nat × String)) (t : Table String)
    (valsF : Nat → List (Option String))
    (hnodup : (L.map Prod.snd).Nodup)
    (hfresh : ∀ kc ∈ L, kc.2 ∉ t.cols)
    (hlen : ∀ k, (valsF k).length = t.rows.length) :
    (L.foldl (fun acc kc => dfSet acc kc.2 (valsF kc.1)) t).cols =
      t.cols ++ L.map Prod.snd ∧
    (L.foldl (fun acc kc => dfSet acc kc.2 (valsF kc.1)) t).rows.length =
      t.rows.length := by
  induction L generalizing t with
  | nil => simp
  | cons kc rest ih =>
    rw [List.map_cons, List.nodup_cons] at hnodup
    have hstep := dfSet_fresh t kc.2 (valsF kc.1) (hfresh kc (by simp)) (hlen kc.1)
    have hrest := ih (dfSet t kc.2 (valsF kc.1)) hnodup.2
      (fun kc' hkc' => by
        rw [hstep.1]
        intro hmem
        rcases List.mem_append.mp hmem with hm | hm
        · exact hfresh kc' (List.mem_cons_of_mem _ hkc') hm
        · simp at hm
          exact hnodup.1 (hm ▸ List.mem_map.mpr ⟨kc', hkc', rfl⟩))
      (fun k => by rw [hlen k, hstep.2])
    rw [List.foldl_cons]
    refine ⟨?_, by rw [hrest.2, hstep.2]⟩
    rw [hrest.1, hstep.1]
    simp

/-- C8 counterexample: a raw relation with one row and no `user_agent`
column yields a `silver_page_count` view with the enrichment columns but
ZERO rows (`WHERE 0=1`), refuting the claimed 1:1 row correspondence
with all enrichment columns NULL. -/
theorem c8_counterexample :
    "user_agent" ∉ (⟨["url"], [[some "/a"]]⟩ : Table String).cols ∧
    (⟨["url"], [[some "/a"]]⟩ : Table String).rows.length = 1 ∧
    (silver_page_count fallbackParse (fun o => o)
      ⟨["url"], [[some "/a"]]⟩).rows.length = 0 ∧
    (silver_page_count fallbackParse (fun o => o)
      ⟨["url"], [[some "/a"]]⟩).cols = ["url"] ++ ENRICH_COLS := by decide

/-- C8 (amended): the enrichment stage always exposes the raw columns
plus the ten enrichment columns, but the 1:1 row correspondence holds
only in the enriched branch: when the raw relation has a `user_agent`
column and at least one row, the output is the raw rows enriched (with a
`dt` column also appended) in 1:1 correspondence; when the `user_agent`
column is absent — or present with no rows — the view exposes the
expected column shape with ZERO rows, not the raw rows. -/
theorem c8_enrichment_shape (enrich : String → List (Option String))
    (toDate : Option String → Option String) (raw : Table String)
    (hdisj : ∀ c ∈ ENRICH_COLS, c ∉ raw.cols) (hdt : "dt" ∉ raw.cols) :
    ("user_agent" ∈ raw.cols → raw.rows ≠ [] →
      (silver_page_count enrich toDate raw).cols =
        raw.cols ++ ENRICH_COLS ++ ["dt"] ∧
      (silver_page_count enrich toDate raw).rows.length = raw.rows.length) ∧
    ("user_agent" ∈ raw.cols → raw.rows = [] →
      silver_page_count enrich toDate raw = ⟨raw.cols ++ ENRICH_COLS, []⟩) ∧
    ("user_agent" ∉ raw.cols →
      silver_page_count enrich toDate raw = ⟨raw.cols ++ ENRICH_COLS, []⟩) := by
  refine ⟨?_, ?_, ?_⟩
  · intro hua hrows
    rw [silver_page_count, if_pos hua, if_neg hrows]
    have hfold := fold_dfSet_fresh ENRICH_COLS.enum raw
      (fun k => (raw.rows.map fun r => enrich (uaOf raw r)).map
        fun p => (p.get? k).getD none)
      (by rw [List.enum_map_snd]; decide)
      (fun kc hkc => hdisj kc.2 (by
        have hm : kc.2 ∈ List.map Prod.snd ENRICH_COLS.enum :=
          List.mem_map.mpr ⟨kc, hkc, rfl⟩
        rwa [List.enum_map_snd] at hm))
      (fun k => by simp)
    have henrich : (enrichTable enrich raw).cols = raw.cols ++ ENRICH_COLS ∧
        (enrichTable enrich raw).rows.length = raw.rows.length := by
      rw [enrichTable]
      exact ⟨by rw [hfold.1, List.enum_map_snd], hfold.2⟩
    have hdtfresh : "dt" ∉ (enrichTable enrich raw).cols := by
      rw [henrich.1]
      intro hm
      rcases List.mem_append.mp hm with hm | hm
      · exact hdt hm
      · revert hm
        decide
    have hdtlen : (dtVals toDate raw).length = (enrichTable enrich raw).rows.length := by
      rw [henrich.2, dtVals]
      by_cases h1 : "timestamp" ∈ raw.cols
      · rw [if_pos h1]; simp
      · rw [if_neg h1]
        by_cases h2 : "dt" ∈ raw.cols
        · rw [if_pos h2]; simp
        · rw [if_neg h2]; simp
    have hset := dfSet_fresh (enrichTable enrich raw) "dt" (dtVals toDate raw)
      hdtfresh hdtlen
    exact ⟨by rw [hset.1, henrich.1], by rw [hset.2, henrich.2]⟩
  · intro hua hrows
    rw [silver_page_count, if_pos hua, if_pos hrows]
  · intro hua
    rw [silver_page_count, if_neg hua]

/-- C8 witness: the shape theorem applied to a concrete raw relation
with `url`, `user_agent`, `timestamp` columns and one row. -/
theorem c8_witness :
    (silver_page_count fallbackParse (fun o => o)
      ⟨["url", "user_agent", "timestamp"],
       [[some "/a", some "Mozilla Chrome/1 mobile", some "2024-01-01"]]⟩).cols =
      ["url", "user_agent", "timestamp"] ++ ENRICH_COLS ++ ["dt"] ∧
    (silver_page_count fallbackParse (fun o => o)
      ⟨["url", "user_agent", "timestamp"],
       [[some "/a", some "Mozilla Chrome/1 mobile", some "2024-01-01"]]⟩).rows.length = 1 :=
  (c8_enrichment_shape fallbackParse (fun o => o)
    ⟨["url", "user_agent", "timestamp"],
     [[some "/a", some "Mozilla Chrome/1 mobile", some "2024-01-01"]]⟩
    (by decide) (by decide)).1 (by decide) (by decide)

/-! ## Search-log parser (`ducklake_core/search_log_parser.py`)

Embedding of `detect_log_format`, `normalize_timestamp`,
`parse_structured_log_line` and the per-line loop of
`parse_search_logs_file`.  The JSON / CSV / plain-text line parsers
(whose first step is the external `json.loads` or regex library) are
parameters; the failing input of claim C6 is detected as structured-log
format and never reaches them.  Python's
`any(re.search(r'20\d{2}-\d{2}-\d{2}', line))` iterates the match object
via its `__getitem__` when a match exists (group 0 is non-empty, so the
result is `True`), but raises `TypeError: 'NoneType' object is not
iterable` when `re.search` returns `None` — modelled as `Except`. -/

inductive LogFormat
  | structured_log
  | json_lines
  | csv
  | plain_text
deriving DecidableEq, Repr

def isPyWs (c : Char) : Bool :=
  c == ' ' || c == '\t' || c == '\n' || c == '\r' || c == '\x0b' || c == '\x0c'

/-- Python `str.strip()`. -/
def pyStrip (s : String) : String :=
  ⟨((s.data.dropWhile isPyWs).reverse.dropWhile isPyWs).reverse⟩

def startsWith (s pfx : String) : Bool := isPrefixChars pfx.data s.data

/-- Python `str.count` (the patterns used — `"\n{"`, `","`, `"\n"` —
cannot self-overlap, so the overlapping scan coincides with Python's
non-overlapping count). -/
def countSubChars : List Char → List Char → Nat
  | [], _ => 0
  | c :: rest, sub =>
    (if isPrefixChars sub (c :: rest) then 1 else 0) + countSubChars rest sub

/-- `detect_log_format` over the first 1000 characters of the content. -/
def detect_log_format (content : String) : LogFormat :=
  let sample := pyStrip ⟨content.data.take 1000⟩
  if startsWith sample "INFO:root:" && containsSub sample " - IP:" &&
      containsSub sample " - Query:" then .structured_log
  else if startsWith sample "\x7b" && 0 < countSubChars sample.data "\n\x7b".data then
    .json_lines
  else if containsSub sample "," &&
      countSubChars sample.data ['\n'] < countSubChars sample.data [','] then
    .csv
  else .plain_text

/-- match a character-class pattern exactly. -/
def matchesPat : List (Char → Bool) → List Char → Bool
  | [], [] => true
  | [], _ :: _ => false
  | _ :: _, [] => false
  | p :: ps, c :: cs => p c && matchesPat ps cs

/-- match a character-class pattern as a prefix. -/
def matchesPatPrefix : List (Char → Bool) → List Char → Bool
  | [], _ => true
  | _ :: _, [] => false
  | p :: ps, c :: cs => p c && matchesPatPrefix ps cs

/-- the regex `20\d{2}-\d{2}-\d{2}`. -/
def datePat : List (Char → Bool) :=
  [(· == '2'), (· == '0'), Char.isDigit, Char.isDigit, (· == '-'),
   Char.isDigit, Char.isDigit, (· == '-'), Char.isDigit, Char.isDigit]

/-- the regex `^20\d{2}-\d{2}-\d{2} \d{2}:\d{2}:\d{2}$`. -/
def dateTimePat : List (Char → Bool) :=
  datePat ++ [(· == ' '), Char.isDigit, Char.isDigit, (· == ':'),
    Char.isDigit, Char.isDigit, (· == ':'), Char.isDigit, Char.isDigit]

/-- `re.search(r'20\d{2}-\d{2}-\d{2}', line)` finds a match somewhere. -/
def listHasDate : List Char → Bool
  | [] => false
  | c :: rest => matchesPatPrefix datePat (c :: rest) || listHasDate rest

/-- `normalize_timestamp`: space-separated datetime → `T` form (+`Z`),
date-only → midday (+`Z`), anything else passed through; `None` for a
falsy input. -/
def normalize_timestamp (raw : String) (assume_utc : Bool) : Option String :=
  if raw = "" then none
  else
    let r := pyStrip raw
    if matchesPat dateTimePat r.data then
      some (⟨r.data.map fun c => if c = ' ' then 'T' else c⟩ ++
        (if assume_utc then "Z" else ""))
    else if matchesPat datePat r.data then
      some (r ++ "T12:00:00" ++ (if assume_utc then "Z" else ""))
    else some r

/-- a normalized search record. -/
structure SRec where
  timestamp : String
  query : String
  ip : String
deriving DecidableEq, Repr

/-- `s.split(sep, 1)` when `sep` occurs (the two parts); `none` when it
does not (in the caller the two-name unpacking then raises and the whole
line parse returns `None`). -/
def splitOnceChars (l sep : List Char) : Option (List Char × List Char) :=
  match l with
  | [] => none
  | c :: rest =>
    if isPrefixChars sep (c :: rest) then some ([], (c :: rest).drop sep.length)
    else (splitOnceChars rest sep).map fun pr => (c :: pr.1, pr.2)

/-- `parse_structured_log_line`:
`INFO:root:<timestamp> - IP: <ip> - Query: <text>`. -/
def parse_structured_log_line (line : String) (assume_utc : Bool) :
    Option SRec :=
  if startsWith line "INFO:root:" && containsSub line " - IP:" &&
      containsSub line " - Query:" then
    match splitOnceChars (line.data.drop ("INFO:root:".data.length)) " - IP:".data with
    | none => none
    | some (tsPart, remainder) =>
      match splitOnceChars remainder " - Query:".data with
      | none => none
      | some (ipPart, queryPart) =>
        match normalize_timestamp (pyStrip ⟨tsPart⟩) assume_utc with
        | none => none
        | some ts =>
          let query := pyStrip ⟨queryPart⟩
          if ts ≠ "" && query ≠ "" then some ⟨ts, query, pyStrip ⟨ipPart⟩⟩
          else none
  else none

/-- `any(re.search(r'20\d{2}-\d{2}-\d{2}', line))`: `True` when a match
exists (iterating the match object yields its non-empty group 0),
`TypeError` when `re.search` returns `None`. -/
def pyAnyOfSearch (line : String) : Except String Bool :=
  if listHasDate line.data then .ok true
  else .error "TypeError: argument of type NoneType is not iterable"

structure ParseAcc where
  records : List SRec
  total_lines : Nat
  parsed_lines : Nat
  skipped_no_timestamp : Nat
  skipped_no_query : Nat
deriving DecidableEq, Repr

/-- the per-line loop of `parse_search_logs_file`: blank lines are
skipped, a parsed line is appended, and an unparsed line is classified
for the skip counters via `pyAnyOfSearch` — which raises on any
unparsed line containing no date token. -/
def parseLines (fmt : LogFormat)
    (jsonP csvP plainP : String → Bool → Option SRec) (assume_utc : Bool) :
    List String → ParseAcc → Except String ParseAcc
  | [], acc => .ok acc
  | rawLine :: rest, acc =>
    let acc1 : ParseAcc := { acc with total_lines := acc.total_lines + 1 }
    let line := pyStrip rawLine
    if line = "" then parseLines fmt jsonP csvP plainP assume_utc rest acc1
    else
      let record :=
        match fmt with
        | .structured_log => parse_structured_log_line line assume_utc
        | .json_lines => jsonP line assume_utc
        | .csv => csvP line assume_utc
        | .plain_text => plainP line assume_utc
      match record with
      | some r =>
        parseLines fmt jsonP csvP plainP assume_utc rest
          { acc1 with parsed_lines := acc1.parsed_lines + 1,
                      records := acc1.records ++ [r] }
      | none =>
        match pyAnyOfSearch line with
        | .error e => .error e
        | .ok true =>
          parseLines fmt jsonP csvP plainP assume_utc rest
            { acc1 with skipped_no_query := acc1.skipped_no_query + 1 }
        | .ok false =>
          parseLines fmt jsonP csvP plainP assume_utc rest
            { acc1 with skipped_no_timestamp := acc1.skipped_no_timestamp + 1 }

/-- Python `str.splitlines()` for newline-separated content. -/
def splitLinesChars : List Char → List Char → List String
  | [], cur => [⟨cur.reverse⟩]
  | c :: rest, cur =>
    if c = '\n' then ⟨cur.reverse⟩ :: splitLinesChars rest []
    else splitLinesChars rest (c :: cur)

def pySplitLines (s : String) : List String := splitLinesChars s.data []

/-- `parse_search_logs_file`: detect the format, run the line loop, and
return ONLY the records — the diagnostic counters are local variables
the function never returns. -/
def parse_search_logs_file (jsonP csvP plainP : String → Bool → Option SRec)
    (content : String) (assume_utc : Bool) : Except String (List SRec) :=
  (parseLines (detect_log_format content) jsonP csvP plainP assume_utc
    (pySplitLines content) ⟨[], 0, 0, 0, 0⟩).map (·.records)

/-- the structured-log file of the repo's own
`test_parse_search_logs_file_structured` test: two parseable lines and
one invalid line without a date token. -/
def c6Content : String :=
  "INFO:root:2023-01-01T10:00:00Z - IP: 192.168.1.1 - Query: first query\n" ++
  "INFO:root:2023-01-01T10:01:00Z - IP: 192.168.1.2 - Query: second query\n" ++
  "Some invalid line"

/-- C6: per-file parsing does NOT return normally on an unparseable
line: the file is detected as structured-log, its well-formed lines
parse, but the line `Some invalid line` (no date token) makes
`any(re.search(...))` raise `TypeError`, so `parse_search_logs_file`
raises instead of counting the line in the skip diagnostics — the
repo's own test expects 2 records from this very file. -/
theorem c6_parser_crash :
    detect_log_format c6Content = .structured_log ∧
    parse_structured_log_line
      "INFO:root:2023-01-01T10:00:00Z - IP: 192.168.1.1 - Query: first query"
      true = some ⟨"2023-01-01T10:00:00Z", "first query", "192.168.1.1"⟩ ∧
    parse_structured_log_line "Some invalid line" true = none ∧
    parse_search_logs_file (fun _ _ => none) (fun _ _ => none)
      (fun _ _ => none) c6Content true =
      .error "TypeError: argument of type NoneType is not iterable" := by
  refine ⟨by decide, by decide, by decide, by rfl⟩

end Ducklake
